import Mathlib

/-! Verification development for `copy_dist.py`, a distribution
assembler.

The script operates exclusively on paths of the form `/workspace/<name>`:
it resets `/workspace/dist`, copies a fixed manifest of six workspace
children into it, and prints a per-entry notice, the destination listing
and a total size in mebibytes.  We model the filesystem as the tree of
children of the workspace root `/workspace` (the only directory the
script ever names), a directory being an ordered association list of
(name, node) pairs.  Mutation of the real filesystem becomes explicit
state passing of this tree; exceptions of fallible operations are
modelled by an oracle deciding, per manifest entry, whether the copy
raises, and by an `Except` result for the unguarded reset step.
-/

set_option autoImplicit false

namespace CopyDist

/-- A filesystem node: a regular file carries its byte content and a
metadata word (timestamps/permissions, preserved by `shutil.copy2` and
`shutil.copytree`), a directory carries its ordered children. -/
inductive FSNode where
  | file (content : List Nat) (meta : Nat) : FSNode
  | dir (children : List (String × FSNode)) : FSNode
deriving Repr

/-- The children of the workspace root `/workspace`. -/
def Workspace := List (String × FSNode)

/-- Lookup of a child by name (the `os.path.exists` and read side of the
model): first match wins. -/
def lookup : List (String × FSNode) → String → Option FSNode
  | [], _ => none
  | (k, v) :: rest, name => if k = name then some v else lookup rest name

/-- Remove all pairs with the given key (the effect of
`shutil.rmtree('/workspace/dist')` on the workspace children). -/
def eraseKey : List (String × FSNode) → String → List (String × FSNode)
  | [], _ => []
  | (k, v) :: rest, name =>
      if k = name then eraseKey rest name else (k, v) :: eraseKey rest name

/-- The destination root `/workspace/dist` of the source
(`dist_dir = '/workspace/dist'`), represented by the child name
`"dist"` of the workspace root. -/
def distName : String := "dist"

/-- The manifest, verbatim from the source:
`files_to_copy = [('.next', '.next'), ('public', 'public'),
('package.json', 'package.json'), ('server.js', 'server.js'),
('.env.local', '.env'), ('next.config.mjs', 'next.config.mjs')]`. -/
def files_to_copy : List (String × String) :=
  [(".next", ".next"),
   ("public", "public"),
   ("package.json", "package.json"),
   ("server.js", "server.js"),
   (".env.local", ".env"),
   ("next.config.mjs", "next.config.mjs")]

/-- One console line of the per-entry loop. -/
inductive Notice where
  | copied (name : String) : Notice
  | missing (name : String) : Notice
  | errorCopying (name : String) (msg : String) : Notice
deriving DecidableEq, Repr

/-- The exact console text of a notice, as printed by the script. -/
def Notice.render : Notice → String
  | .copied s => "Copied: " ++ s
  | .missing s => "Missing: " ++ s
  | .errorCopying s m => "Error copying " ++ s ++ ": " ++ m

/-- Environment oracle for the fallible filesystem calls: `resetFails`
says whether `shutil.rmtree`/`os.makedirs` on the destination raises
(with message `resetMsg`); `fails src` says whether the copy of the
manifest entry with source name `src` raises (with message `msg src`),
in which case `leftover src` is whatever partial content the aborted
copy left under the entry's destination name (`none` when nothing was
written). -/
structure ErrOracle where
  resetFails : Bool
  resetMsg : String
  fails : String → Bool
  msg : String → String
  leftover : String → Option FSNode

/-- Model of `shutil.copytree(src_path, dst_path)`: recursively copies
the whole directory tree, preserving metadata.  On a value-level tree a
faithful recursive copy is the identity on the node. -/
def copytree (n : FSNode) : FSNode := n

/-- Model of `shutil.copy2(src_path, dst_path)`: copies bytes and
metadata. -/
def copy2 (n : FSNode) : FSNode := n

/-- One iteration of the `for src, dst in files_to_copy` loop, acting on
the children of the destination directory.  The source is looked up
among the workspace children: no manifest source name is `"dist"`, so
looking it up in the pre-reset workspace is equivalent to reading the
live filesystem.  New destination entries are appended; the six
destination names are pairwise distinct and the destination starts
empty, so a destination name never pre-exists (hence
`shutil.copytree`'s failure on an existing destination is unreachable
on this manifest). -/
def copyStep (o : ErrOracle) (ws : Workspace) (dist : List (String × FSNode))
    (e : String × String) : List (String × FSNode) × Notice :=
  match lookup ws e.1 with
  | none => (dist, Notice.missing e.1)
  | some node =>
      if o.fails e.1 then
        (match o.leftover e.1 with
         | none => dist
         | some p => dist ++ [(e.2, p)],
         Notice.errorCopying e.1 (o.msg e.1))
      else
        match node with
        | FSNode.dir cs => (dist ++ [(e.2, copytree (FSNode.dir cs))], Notice.copied e.1)
        | FSNode.file c m => (dist ++ [(e.2, copy2 (FSNode.file c m))], Notice.copied e.1)

/-- The manifest loop: processes the entries in list order, threading
the destination children and accumulating the notices in order. -/
def processList (o : ErrOracle) (ws : Workspace) :
    List (String × String) → List (String × FSNode) →
    List (String × FSNode) × List Notice
  | [], dist => (dist, [])
  | e :: rest, dist =>
      let step := copyStep o ws dist e
      let r := processList o ws rest step.1
      (r.1, step.2 :: r.2)

/-- Sizes of the regular files directly inside a directory (the `fn`
of one `os.walk` tuple, mapped through `os.path.getsize`). -/
def topFiles : List (String × FSNode) → List Nat
  | [] => []
  | (_, FSNode.file c _) :: rest => c.length :: topFiles rest
  | (_, FSNode.dir _) :: rest => topFiles rest

/-- The recursive part of `os.walk(dist_dir)`: file sizes collected from
every subdirectory, in top-down traversal order. -/
def walkSubs : List (String × FSNode) → List Nat
  | [] => []
  | (_, FSNode.file _ _) :: rest => walkSubs rest
  | (_, FSNode.dir ds) :: rest => (topFiles ds ++ walkSubs ds) ++ walkSubs rest

/-- All file sizes yielded by
`os.path.getsize(...) for dp, dn, fn in os.walk(dist_dir) for f in fn`:
the root directory's own files first, then the recursive traversal. -/
def walkDir (cs : List (String × FSNode)) : List Nat :=
  topFiles cs ++ walkSubs cs

/-- Total byte size of every regular file anywhere under a directory,
defined by direct structural recursion (the specification's reading:
"recursively sum the byte size of every file"). -/
def childBytes : List (String × FSNode) → Nat
  | [] => 0
  | (_, FSNode.file c _) :: rest => c.length + childBytes rest
  | (_, FSNode.dir ds) :: rest => childBytes ds + childBytes rest

/-- Total byte size of all regular files in a node. -/
def nodeBytes : FSNode → Nat
  | FSNode.file c _ => c.length
  | FSNode.dir cs => childBytes cs

/-- Rounding of a rational to two decimal places, modelling the `:.2f`
format of the final size line. -/
def roundTwo (q : ℚ) : ℚ := ((round (q * 100) : ℤ) : ℚ) / 100

/-- The observable outcome of one run that reached the summary step:
the workspace children after the run, the destination directory's
children, the per-entry notices in emission order, the printed
destination listing (`os.listdir(dist_dir)`), the computed size value
`sum(...) / 1024 / 1024`, and that value as printed with two decimals. -/
structure RunResult where
  workspace : List (String × FSNode)
  distTree : List (String × FSNode)
  notices : List Notice
  listing : List String
  sizeMB : ℚ
  printedSize : ℚ
deriving Repr

/-- The whole script, given that the destination reset (lines 5-8 of
the source) succeeds: remove `/workspace/dist` if it exists, create it
fresh, run the manifest loop, then list the destination and compute its
total size in mebibytes. -/
def runScript (o : ErrOracle) (ws : Workspace) : RunResult :=
  let base := if (lookup ws distName).isSome then eraseKey ws distName else ws
  let r := processList o ws files_to_copy []
  let size : ℚ := ((walkDir r.1).sum : ℚ) / 1024 / 1024
  { workspace := base ++ [(distName, FSNode.dir r.1)]
    distTree := r.1
    notices := r.2
    listing := r.1.map Prod.fst
    sizeMB := size
    printedSize := roundTwo size }

/-- The whole script including the unguarded destination reset: an
exception in `shutil.rmtree`/`os.makedirs` is caught nowhere, so it
propagates before any manifest entry is processed; otherwise the run
completes and yields a `RunResult`. -/
def runScriptTop (o : ErrOracle) (ws : Workspace) : Except String RunResult :=
  if o.resetFails then Except.error o.resetMsg else Except.ok (runScript o ws)

/-- The notice an entry produces, determined by the source lookup and
the error oracle alone. -/
def noticeOf (o : ErrOracle) (ws : Workspace) (e : String × String) : Notice :=
  match lookup ws e.1 with
  | none => Notice.missing e.1
  | some _ =>
      if o.fails e.1 then Notice.errorCopying e.1 (o.msg e.1) else Notice.copied e.1

/-- What an entry deposits under its destination name: nothing when the
source is missing or the failed copy left nothing, the leftover on a
failed copy, the source node itself on success. -/
def writeOf (o : ErrOracle) (ws : Workspace) (e : String × String) : Option FSNode :=
  match lookup ws e.1 with
  | none => none
  | some node => if o.fails e.1 then o.leftover e.1 else some node

/-- The source name a notice mentions. -/
def Notice.name : Notice → String
  | .copied s => s
  | .missing s => s
  | .errorCopying s _ => s

theorem copyStep_snd (o : ErrOracle) (ws : Workspace)
    (dist : List (String × FSNode)) (e : String × String) :
    (copyStep o ws dist e).2 = noticeOf o ws e := by
  unfold copyStep noticeOf
  cases lookup ws e.1 with
  | none => rfl
  | some node =>
      by_cases h : o.fails e.1
      · simp [h]
      · cases node <;> simp [h]

theorem copyStep_fst (o : ErrOracle) (ws : Workspace)
    (dist : List (String × FSNode)) (e : String × String) :
    (copyStep o ws dist e).1 =
      match writeOf o ws e with
      | none => dist
      | some n => dist ++ [(e.2, n)] := by
  unfold copyStep writeOf
  cases lookup ws e.1 with
  | none => rfl
  | some node =>
      by_cases h : o.fails e.1
      · simp [h]
      · cases node <;> simp [h, copytree, copy2]

theorem lookup_append_of_none {a : List (String × FSNode)}
    (b : List (String × FSNode)) {k : String} (h : lookup a k = none) :
    lookup (a ++ b) k = lookup b k := by
  induction a with
  | nil => rfl
  | cons p rest ih =>
      rw [lookup] at h
      by_cases hk : p.1 = k
      · simp [hk] at h
      · rw [List.cons_append, lookup]
        simp only [hk, if_false] at h ⊢
        exact ih h

theorem lookup_append_of_some {a : List (String × FSNode)}
    (b : List (String × FSNode)) {k : String} {v : FSNode}
    (h : lookup a k = some v) : lookup (a ++ b) k = some v := by
  induction a with
  | nil => simp [lookup] at h
  | cons p rest ih =>
      rw [lookup] at h
      by_cases hk : p.1 = k
      · rw [List.cons_append, lookup]
        simp only [hk, if_true] at h ⊢
        exact h
      · rw [List.cons_append, lookup]
        simp only [hk, if_false] at h ⊢
        exact ih h

theorem lookup_eraseKey_ne {l : List (String × FSNode)} {k k' : String}
    (h : k' ≠ k) : lookup (eraseKey l k) k' = lookup l k' := by
  induction l with
  | nil => rfl
  | cons p rest ih =>
      rw [eraseKey, lookup]
      by_cases hk : p.1 = k
      · have hkk : ¬ k = k' := fun hc => h hc.symm
        simp [hk, hkk, ih]
      · rw [if_neg hk, lookup, ih]

theorem lookup_eraseKey_self (l : List (String × FSNode)) (k : String) :
    lookup (eraseKey l k) k = none := by
  induction l with
  | nil => rfl
  | cons p rest ih =>
      rw [eraseKey]
      by_cases hk : p.1 = k
      · simpa [hk] using ih
      · rw [if_neg hk, lookup, if_neg hk]
        exact ih

theorem eraseKey_of_lookup_none {l : List (String × FSNode)} {k : String}
    (h : lookup l k = none) : eraseKey l k = l := by
  induction l with
  | nil => rfl
  | cons p rest ih =>
      rw [lookup] at h
      by_cases hk : p.1 = k
      · simp [hk] at h
      · rw [eraseKey, if_neg hk]
        simp only [hk, if_false] at h
        rw [ih h]

theorem eraseKey_append (a b : List (String × FSNode)) (k : String) :
    eraseKey (a ++ b) k = eraseKey a k ++ eraseKey b k := by
  induction a with
  | nil => rfl
  | cons p rest ih =>
      rw [List.cons_append, eraseKey, eraseKey]
      by_cases hk : p.1 = k
      · simp [hk, ih]
      · simp [hk, ih]

theorem processList_snd (o : ErrOracle) (ws : Workspace)
    (es : List (String × String)) (dist : List (String × FSNode)) :
    (processList o ws es dist).2 = es.map (noticeOf o ws) := by
  induction es generalizing dist with
  | nil => rfl
  | cons e rest ih =>
      rw [processList, List.map_cons]
      simp only [ih, copyStep_snd]

theorem processList_congr {o : ErrOracle} {ws1 ws2 : Workspace}
    {es : List (String × String)} (dist : List (String × FSNode))
    (h : ∀ e ∈ es, lookup ws1 e.1 = lookup ws2 e.1) :
    processList o ws1 es dist = processList o ws2 es dist := by
  induction es generalizing dist with
  | nil => rfl
  | cons e rest ih =>
      rw [processList, processList]
      have he : lookup ws1 e.1 = lookup ws2 e.1 := h e (List.mem_cons_self e rest)
      have hstep : copyStep o ws1 dist e = copyStep o ws2 dist e := by
        unfold copyStep
        rw [he]
      rw [hstep, ih _ (fun e' he' => h e' (List.mem_cons_of_mem e he'))]

theorem processList_lookup_of_notMem {o : ErrOracle} {ws : Workspace}
    {es : List (String × String)} {k : String}
    (dist : List (String × FSNode)) (h : k ∉ es.map Prod.snd) :
    lookup (processList o ws es dist).1 k = lookup dist k := by
  induction es generalizing dist with
  | nil => rfl
  | cons e rest ih =>
      rw [List.map_cons, List.mem_cons] at h
      push_neg at h
      rw [processList]
      simp only
      rw [ih _ h.2, copyStep_fst]
      cases hw : writeOf o ws e with
      | none => rfl
      | some n =>
          simp only
          cases hd : lookup dist k with
          | none =>
              rw [lookup_append_of_none _ hd, lookup, if_neg (fun hc => h.1 hc.symm)]
              rfl
          | some v => rw [lookup_append_of_some _ hd]

theorem processList_lookup {o : ErrOracle} {ws : Workspace}
    {es : List (String × String)} {e : String × String}
    (dist : List (String × FSNode)) (hnd : (es.map Prod.snd).Nodup)
    (hmem : e ∈ es) (hdist : lookup dist e.2 = none) :
    lookup (processList o ws es dist).1 e.2 = writeOf o ws e := by
  induction es generalizing dist with
  | nil => cases hmem
  | cons e0 rest ih =>
      rw [List.map_cons, List.nodup_cons] at hnd
      rcases List.mem_cons.mp hmem with rfl | htail
      · rw [processList]
        simp only
        rw [processList_lookup_of_notMem _ hnd.1, copyStep_fst]
        cases hw : writeOf o ws e with
        | none => simpa using hdist
        | some n =>
            simp only
            rw [lookup_append_of_none _ hdist, lookup, if_pos rfl]
      · have hne : e0.2 ≠ e.2 := by
          intro hc
          exact hnd.1 (hc ▸ List.mem_map_of_mem Prod.snd htail)
        rw [processList]
        simp only
        rw [ih _ hnd.2 htail]
        rw [copyStep_fst]
        cases hw : writeOf o ws e0 with
        | none => exact hdist
        | some n =>
            simp only
            rw [lookup_append_of_none _ hdist, lookup, if_neg hne, lookup]

theorem mem_keys_processList {o : ErrOracle} {ws : Workspace}
    {es : List (String × String)} {k : String}
    (dist : List (String × FSNode))
    (h : k ∈ (processList o ws es dist).1.map Prod.fst) :
    k ∈ dist.map Prod.fst ∨ k ∈ es.map Prod.snd := by
  induction es generalizing dist with
  | nil => exact Or.inl h
  | cons e rest ih =>
      rw [processList] at h
      simp only at h
      rcases ih _ h with hacc | htail
      · rw [copyStep_fst] at hacc
        cases hw : writeOf o ws e with
        | none =>
            rw [hw] at hacc
            exact Or.inl hacc
        | some n =>
            rw [hw] at hacc
            simp only [List.map_append, List.mem_append, List.map_cons,
              List.map_nil, List.mem_singleton] at hacc
            rcases hacc with h1 | h2
            · exact Or.inl h1
            · exact Or.inr (by simp [h2])
      · exact Or.inr (by simp [htail])

theorem processList_fst_all_some {o : ErrOracle} {ws : Workspace}
    {es : List (String × String)} (dist : List (String × FSNode))
    (h : ∀ e ∈ es, (writeOf o ws e).isSome) :
    (processList o ws es dist).1.map Prod.fst =
      dist.map Prod.fst ++ es.map Prod.snd := by
  induction es generalizing dist with
  | nil => simp [processList]
  | cons e rest ih =>
      rw [processList]
      simp only
      rw [ih _ (fun e' he' => h e' (List.mem_cons_of_mem e he')), copyStep_fst]
      cases hw : writeOf o ws e with
      | none =>
          have := h e (List.mem_cons_self e rest)
          rw [hw] at this
          cases this
      | some n => simp

theorem processList_fst_all_none {o : ErrOracle} {ws : Workspace}
    {es : List (String × String)} (dist : List (String × FSNode))
    (h : ∀ e ∈ es, writeOf o ws e = none) :
    (processList o ws es dist).1 = dist := by
  induction es generalizing dist with
  | nil => rfl
  | cons e rest ih =>
      rw [processList]
      simp only
      rw [copyStep_fst, h e (List.mem_cons_self e rest)]
      exact ih _ (fun e' he' => h e' (List.mem_cons_of_mem e he'))

theorem noticeOf_name (o : ErrOracle) (ws : Workspace) (e : String × String) :
    (noticeOf o ws e).name = e.1 := by
  unfold noticeOf
  cases lookup ws e.1 with
  | none => rfl
  | some node =>
      by_cases h : o.fails e.1 <;> simp [h, Notice.name]

theorem noticeOf_eq_missing {o : ErrOracle} {ws : Workspace}
    {e : String × String} {s : String} (h : noticeOf o ws e = Notice.missing s) :
    e.1 = s := by
  have := noticeOf_name o ws e
  rw [h] at this
  exact this.symm

theorem topFiles_sum_add_walkSubs_sum (cs : List (String × FSNode)) :
    (topFiles cs).sum + (walkSubs cs).sum = childBytes cs := by
  induction cs using walkSubs.induct with
  | case1 => simp [topFiles, walkSubs, childBytes]
  | case2 f c m rest ih =>
      rw [topFiles, walkSubs, childBytes, List.sum_cons]
      omega
  | case3 f ds rest ihds ihrest =>
      rw [topFiles, walkSubs, childBytes, List.sum_append, List.sum_append]
      omega

theorem walkDir_sum (cs : List (String × FSNode)) :
    (walkDir cs).sum = childBytes cs := by
  rw [walkDir, List.sum_append]
  exact topFiles_sum_add_walkSubs_sum cs

theorem lookup_base_distName_none (ws : Workspace) :
    lookup (if (lookup ws distName).isSome then eraseKey ws distName else ws)
      distName = none := by
  by_cases hs : (lookup ws distName).isSome
  · rw [if_pos hs]
    exact lookup_eraseKey_self ws distName
  · rw [if_neg hs]
    exact Option.not_isSome_iff_eq_none.mp hs

theorem lookup_base_ne {ws : Workspace} {k : String} (h : k ≠ distName) :
    lookup (if (lookup ws distName).isSome then eraseKey ws distName else ws) k
      = lookup ws k := by
  by_cases hs : (lookup ws distName).isSome
  · rw [if_pos hs]
    exact lookup_eraseKey_ne h
  · rw [if_neg hs]

theorem runScript_workspace (o : ErrOracle) (ws : Workspace) :
    (runScript o ws).workspace =
      (if (lookup ws distName).isSome then eraseKey ws distName else ws)
        ++ [(distName, FSNode.dir (processList o ws files_to_copy []).1)] := rfl

theorem runScript_distTree (o : ErrOracle) (ws : Workspace) :
    (runScript o ws).distTree = (processList o ws files_to_copy []).1 := rfl

theorem runScript_notices (o : ErrOracle) (ws : Workspace) :
    (runScript o ws).notices = files_to_copy.map (noticeOf o ws) := by
  have : (runScript o ws).notices = (processList o ws files_to_copy []).2 := rfl
  rw [this, processList_snd]

theorem lookup_runScript_ne {o : ErrOracle} {ws : Workspace} {k : String}
    (h : k ≠ distName) :
    lookup (runScript o ws).workspace k = lookup ws k := by
  rw [runScript_workspace]
  cases hlk : lookup
      (if (lookup ws distName).isSome then eraseKey ws distName else ws) k with
  | some v => rw [lookup_append_of_some _ hlk, ← lookup_base_ne h, hlk]
  | none =>
      rw [lookup_append_of_none _ hlk, lookup, if_neg (fun hc => h hc.symm)]
      have hws : lookup ws k = none := by
        rw [← @lookup_base_ne ws k h]
        exact hlk
      rw [hws]
      rfl

theorem lookup_runScript_dist (o : ErrOracle) (ws : Workspace) :
    lookup (runScript o ws).workspace distName =
      some (FSNode.dir (runScript o ws).distTree) := by
  rw [runScript_workspace, lookup_append_of_none _ (lookup_base_distName_none ws),
    lookup, if_pos rfl, runScript_distTree]

theorem files_to_copy_fst_ne_dist : ∀ e ∈ files_to_copy, e.1 ≠ distName := by
  decide

theorem processList_runScript_eq (o : ErrOracle) (ws : Workspace) :
    processList o ((runScript o ws).workspace) files_to_copy [] =
      processList o ws files_to_copy [] :=
  processList_congr []
    (fun e he => lookup_runScript_ne (files_to_copy_fst_ne_dist e he))

theorem runScript_eq_of {o : ErrOracle} {ws1 ws2 : Workspace}
    (hbase : (if (lookup ws1 distName).isSome then eraseKey ws1 distName else ws1)
           = (if (lookup ws2 distName).isSome then eraseKey ws2 distName else ws2))
    (hproc : processList o ws1 files_to_copy []
           = processList o ws2 files_to_copy []) :
    runScript o ws1 = runScript o ws2 := by
  unfold runScript
  rw [hbase, hproc]

/-! Concrete sample data for witnesses. -/

/-- Sample `.next` build directory. -/
def fNext : FSNode := FSNode.dir [("app.js", FSNode.file [104, 105] 11)]

/-- Sample `public` assets directory. -/
def fPublic : FSNode := FSNode.dir [("logo.png", FSNode.file [1, 2, 3, 4] 12)]

/-- Sample `package.json`. -/
def fPackage : FSNode := FSNode.file [123, 125] 13

/-- Sample `server.js`. -/
def fServer : FSNode := FSNode.file [10, 20, 30] 14

/-- Sample `.env.local`. -/
def fEnv : FSNode := FSNode.file [65, 66] 15

/-- Sample `next.config.mjs`. -/
def fConfig : FSNode := FSNode.file [99] 16

/-- A workspace in which all six manifest sources exist. -/
def wsAll : Workspace :=
  [(".next", fNext), ("public", fPublic), ("package.json", fPackage),
   ("server.js", fServer), (".env.local", fEnv), ("next.config.mjs", fConfig)]

/-- A workspace in which no manifest source exists. -/
def wsEmpty : Workspace := [("README.md", FSNode.file [82] 1)]

/-- The benign environment: nothing fails. -/
def okOracle : ErrOracle :=
  { resetFails := false, resetMsg := "", fails := fun _ => false,
    msg := fun _ => "", leftover := fun _ => none }

/-- An environment in which the destination reset raises. -/
def resetOracle : ErrOracle :=
  { resetFails := true, resetMsg := "Permission denied", fails := fun _ => false,
    msg := fun _ => "", leftover := fun _ => none }

/-- An environment in which copying `server.js` raises a simulated I/O
error that leaves nothing behind. -/
def failServerOracle : ErrOracle :=
  { resetFails := false, resetMsg := "", fails := fun s => s = "server.js",
    msg := fun _ => "No space left on device", leftover := fun _ => none }

/-! The claims. -/

/-- C1: for every manifest entry whose source exists and whose copy does
not raise, after the run the destination contains, under the entry's
mapped destination name, the very node found at the source — for a file
its bytes and metadata, for a directory the identical subtree. -/
theorem spec_C1 (ws : Workspace) (o : ErrOracle) (src dst : String)
    (node : FSNode) (hmem : (src, dst) ∈ files_to_copy)
    (hsrc : lookup ws src = some node) (hok : o.fails src = false) :
    lookup (runScript o ws).distTree dst = some node := by
  have hnd : (files_to_copy.map Prod.snd).Nodup := by decide
  have h := @processList_lookup o ws files_to_copy (src, dst) [] hnd hmem rfl
  rw [runScript_distTree]
  rw [h]
  unfold writeOf
  simp [hsrc, hok]

theorem spec_C1_witness :
    lookup wsAll ".env.local" = some fEnv ∧
    okOracle.fails ".env.local" = false ∧
    lookup (runScript okOracle wsAll).distTree ".env" = some fEnv :=
  ⟨rfl, rfl, spec_C1 wsAll okOracle ".env.local" ".env" fEnv (by decide) rfl rfl⟩

/-- C2: the destination is reset before copying: after every run the
workspace's `dist` child is exactly the directory built by the manifest
loop starting from an empty destination, and the final destination
contents are the same for any two workspaces that agree outside `dist`
— in particular whatever stale content `dist` held before the run is
gone. -/
theorem spec_C2 (ws : Workspace) (o : ErrOracle) :
    lookup (runScript o ws).workspace distName =
      some (FSNode.dir (processList o ws files_to_copy []).1) ∧
    ∀ ws2 : Workspace, (∀ k, k ≠ distName → lookup ws2 k = lookup ws k) →
      (runScript o ws2).distTree = (runScript o ws).distTree := by
  refine ⟨lookup_runScript_dist o ws, fun ws2 h => ?_⟩
  rw [runScript_distTree, runScript_distTree]
  exact congrArg Prod.fst (processList_congr []
    (fun e he => h e.1 (files_to_copy_fst_ne_dist e he)))

theorem spec_C2_witness :
    lookup (runScript okOracle wsAll).workspace distName =
      some (FSNode.dir (processList okOracle wsAll files_to_copy []).1) :=
  (spec_C2 wsAll okOracle).1

/-- C5: a second run on the workspace left by a first run (sources
unchanged, same environment) produces the identical observable outcome:
same workspace, same destination contents, same notices, same listing
and same reported size — the destination is fully reset each time, so
nothing accumulates. -/
theorem spec_C5 (ws : Workspace) (o : ErrOracle) :
    runScript o ((runScript o ws).workspace) = runScript o ws := by
  refine runScript_eq_of ?_ (processList_runScript_eq o ws)
  rw [lookup_runScript_dist o ws,
    if_pos (show (some (FSNode.dir (runScript o ws).distTree)).isSome = true
      from rfl)]
  rw [runScript_workspace, eraseKey_append,
    eraseKey_of_lookup_none (lookup_base_distName_none ws)]
  simp [eraseKey]

/-- C8: when removing or recreating the destination directory raises,
nothing catches it: the run terminates with that error, before any
manifest entry is processed and with no run outcome produced. -/
theorem spec_C8 (ws : Workspace) (o : ErrOracle) (h : o.resetFails = true) :
    runScriptTop o ws = Except.error o.resetMsg := by
  unfold runScriptTop
  rw [if_pos h]

theorem spec_C8_witness :
    resetOracle.resetFails = true ∧
    runScriptTop resetOracle wsAll = Except.error "Permission denied" :=
  ⟨rfl, spec_C8 wsAll resetOracle rfl⟩

/-- C9: frame property — the run changes the workspace only at the
`dist` child: every other name resolves to the identical node before
and after the run, so no source file or directory is created, modified
or deleted. -/
theorem spec_C9 (ws : Workspace) (o : ErrOracle) (k : String)
    (h : k ≠ distName) :
    lookup (runScript o ws).workspace k = lookup ws k :=
  lookup_runScript_ne h

theorem spec_C9_witness :
    lookup (runScript okOracle wsAll).workspace ".next" = lookup wsAll ".next" :=
  spec_C9 wsAll okOracle ".next" (by decide)

theorem count_missing_zero {o : ErrOracle} {ws : Workspace}
    {es : List (String × String)} {s : String} (h : ∀ e ∈ es, e.1 ≠ s) :
    List.count (Notice.missing s) (es.map (noticeOf o ws)) = 0 := by
  induction es with
  | nil => rfl
  | cons e rest ih =>
      rw [List.map_cons, List.count_cons]
      have hne : ¬ (noticeOf o ws e = Notice.missing s) := fun hc =>
        h e (List.mem_cons_self e rest) (noticeOf_eq_missing hc)
      simp only [beq_iff_eq, hne, if_false]
      exact ih (fun e' he' => h e' (List.mem_cons_of_mem e he'))

theorem count_missing_one {o : ErrOracle} {ws : Workspace}
    {es : List (String × String)} {e : String × String}
    (hnd : (es.map Prod.fst).Nodup) (hmem : e ∈ es)
    (hsrc : lookup ws e.1 = none) :
    List.count (Notice.missing e.1) (es.map (noticeOf o ws)) = 1 := by
  induction es with
  | nil => cases hmem
  | cons e0 rest ih =>
      rw [List.map_cons, List.nodup_cons] at hnd
      rw [List.map_cons, List.count_cons]
      rcases List.mem_cons.mp hmem with rfl | htail
      · have h0 : noticeOf o ws e = Notice.missing e.1 := by
          unfold noticeOf
          rw [hsrc]
        have hz : List.count (Notice.missing e.1) (rest.map (noticeOf o ws)) = 0 :=
          count_missing_zero (fun e' he' hc =>
            hnd.1 (hc ▸ List.mem_map_of_mem Prod.fst he'))
        simp [h0, hz]
      · have hne : e0.1 ≠ e.1 := fun hc =>
          hnd.1 (hc ▸ List.mem_map_of_mem Prod.fst htail)
        have h0 : ¬ (noticeOf o ws e0 = Notice.missing e.1) := fun hc =>
          hne (noticeOf_eq_missing hc)
        simp only [beq_iff_eq, h0, if_false]
        exact ih hnd.2 htail

/-- C3: when the copy of one entry raises, the run emits the
"Error copying <entry>: <message>" notice for exactly that entry name,
and still emits one notice for every manifest entry in manifest order —
a failure on one entry never aborts the remaining entries. -/
theorem spec_C3 (ws : Workspace) (o : ErrOracle) (e : String × String)
    (node : FSNode) (hmem : e ∈ files_to_copy)
    (hsrc : lookup ws e.1 = some node) (hfail : o.fails e.1 = true) :
    (runScript o ws).notices = files_to_copy.map (noticeOf o ws) ∧
    noticeOf o ws e = Notice.errorCopying e.1 (o.msg e.1) ∧
    Notice.errorCopying e.1 (o.msg e.1) ∈ (runScript o ws).notices ∧
    (runScript o ws).notices.length = files_to_copy.length := by
  have herr : noticeOf o ws e = Notice.errorCopying e.1 (o.msg e.1) := by
    unfold noticeOf
    rw [hsrc]
    simp [hfail]
  refine ⟨runScript_notices o ws, herr, ?_, ?_⟩
  · rw [runScript_notices]
    exact herr ▸ List.mem_map_of_mem (noticeOf o ws) hmem
  · rw [runScript_notices, List.length_map]

theorem spec_C3_witness :
    lookup wsAll "server.js" = some fServer ∧
    failServerOracle.fails "server.js" = true ∧
    Notice.errorCopying "server.js" (failServerOracle.msg "server.js") ∈
      (runScript failServerOracle wsAll).notices ∧
    (runScript failServerOracle wsAll).notices.length = files_to_copy.length :=
  ⟨rfl, by decide,
    (spec_C3 wsAll failServerOracle ("server.js", "server.js") fServer
      (by decide) rfl (by decide)).2.2.1,
    (spec_C3 wsAll failServerOracle ("server.js", "server.js") fServer
      (by decide) rfl (by decide)).2.2.2⟩

/-- C4: for a manifest entry whose source does not exist, the run emits
exactly one "missing" notice naming that entry's source name, deposits
nothing under the entry's destination name, and still emits one notice
for every manifest entry. -/
theorem spec_C4 (ws : Workspace) (o : ErrOracle) (e : String × String)
    (hmem : e ∈ files_to_copy) (hsrc : lookup ws e.1 = none) :
    List.count (Notice.missing e.1) (runScript o ws).notices = 1 ∧
    lookup (runScript o ws).distTree e.2 = none ∧
    (runScript o ws).notices.length = files_to_copy.length := by
  have hndf : (files_to_copy.map Prod.fst).Nodup := by decide
  have hnds : (files_to_copy.map Prod.snd).Nodup := by decide
  refine ⟨?_, ?_, ?_⟩
  · rw [runScript_notices]
    exact count_missing_one hndf hmem hsrc
  · have h := @processList_lookup o ws files_to_copy e [] hnds hmem rfl
    rw [runScript_distTree, h]
    unfold writeOf
    rw [hsrc]
  · rw [runScript_notices, List.length_map]

theorem spec_C4_witness :
    lookup wsEmpty ".next" = none ∧
    List.count (Notice.missing ".next") (runScript okOracle wsEmpty).notices = 1 ∧
    lookup (runScript okOracle wsEmpty).distTree ".next" = none :=
  ⟨rfl,
    (spec_C4 wsEmpty okOracle (".next", ".next") (by decide) rfl).1,
    (spec_C4 wsEmpty okOracle (".next", ".next") (by decide) rfl).2.1⟩

/-- C6: the manifest carries exactly one renaming rule — `.env.local`
maps to destination name `.env`, every other entry to its own source
name — and when every source exists and no copy raises, the destination
lists exactly the six mapped names and no "missing" notice is emitted. -/
theorem spec_C6 (ws : Workspace) (o : ErrOracle)
    (hall : ∀ e ∈ files_to_copy, (lookup ws e.1).isSome ∧ o.fails e.1 = false) :
    (∀ e ∈ files_to_copy, e.2 = if e.1 = ".env.local" then ".env" else e.1) ∧
    (runScript o ws).listing =
      [".next", "public", "package.json", "server.js", ".env",
       "next.config.mjs"] ∧
    ∀ s : String, Notice.missing s ∉ (runScript o ws).notices := by
  refine ⟨by decide, ?_, ?_⟩
  · have hl : (runScript o ws).listing =
        (processList o ws files_to_copy []).1.map Prod.fst := rfl
    have hsome : ∀ e ∈ files_to_copy, (writeOf o ws e).isSome := by
      intro e he
      obtain ⟨h1, h2⟩ := hall e he
      obtain ⟨n, hn⟩ := Option.isSome_iff_exists.mp h1
      unfold writeOf
      rw [hn]
      simp [h2]
    rw [hl, processList_fst_all_some [] hsome]
    rfl
  · intro s hs
    rw [runScript_notices] at hs
    obtain ⟨e, he, hne⟩ := List.mem_map.mp hs
    obtain ⟨h1, h2⟩ := hall e he
    obtain ⟨n, hn⟩ := Option.isSome_iff_exists.mp h1
    unfold noticeOf at hne
    rw [hn] at hne
    simp [h2] at hne

theorem spec_C6_witness :
    (runScript okOracle wsAll).listing =
      [".next", "public", "package.json", "server.js", ".env",
       "next.config.mjs"] :=
  (spec_C6 wsAll okOracle (by decide)).2.1

/-- C7: the size the run reports is exactly the recursive sum of the
byte sizes of every regular file anywhere under the destination
directory, divided by 1024 twice, and the printed figure is that value
rounded to two decimal places. -/
theorem spec_C7 (ws : Workspace) (o : ErrOracle) :
    (runScript o ws).sizeMB =
      ((nodeBytes (FSNode.dir (runScript o ws).distTree) : ℚ)) / 1024 / 1024 ∧
    (runScript o ws).printedSize =
      roundTwo ((nodeBytes (FSNode.dir (runScript o ws).distTree) : ℚ)
        / 1024 / 1024) := by
  have hs : (runScript o ws).sizeMB =
      ((walkDir (runScript o ws).distTree).sum : ℚ) / 1024 / 1024 := rfl
  have hp : (runScript o ws).printedSize =
      roundTwo (((walkDir (runScript o ws).distTree).sum : ℚ) / 1024 / 1024) :=
    rfl
  constructor
  · rw [hs, walkDir_sum]
    rfl
  · rw [hp, walkDir_sum]
    rfl

/-- C10: whenever the run reaches the summary step, the workspace has a
`dist` directory (whatever happened to the individual entries), the
destination's immediate entries all bear one of the six mapped names,
the printed listing is exactly the destination's immediate names, and
when every source is missing the listing is empty and the printed size
is 0.00. -/
theorem spec_C10 (ws : Workspace) (o : ErrOracle) :
    lookup (runScript o ws).workspace distName =
      some (FSNode.dir (runScript o ws).distTree) ∧
    (∀ k ∈ (runScript o ws).distTree.map Prod.fst,
      k ∈ ([".next", "public", "package.json", "server.js", ".env",
            "next.config.mjs"] : List String)) ∧
    (runScript o ws).listing = (runScript o ws).distTree.map Prod.fst ∧
    ((∀ e ∈ files_to_copy, lookup ws e.1 = none) →
      (runScript o ws).listing = [] ∧ (runScript o ws).printedSize = 0) := by
  refine ⟨lookup_runScript_dist o ws, ?_, rfl, ?_⟩
  · intro k hk
    rw [runScript_distTree] at hk
    rcases mem_keys_processList [] hk with hacc | hdst
    · simp at hacc
    · exact hdst
  · intro h
    have hdist : (processList o ws files_to_copy []).1 = [] :=
      processList_fst_all_none [] (fun e he => by
        unfold writeOf
        rw [h e he])
    have hl : (runScript o ws).listing =
        (processList o ws files_to_copy []).1.map Prod.fst := rfl
    have hp : (runScript o ws).printedSize =
        roundTwo (((walkDir (processList o ws files_to_copy []).1).sum : ℚ)
          / 1024 / 1024) := rfl
    have hz : (walkDir ([] : List (String × FSNode))).sum = 0 := by
      rw [walkDir_sum]
      simp [childBytes]
    constructor
    · rw [hl, hdist]
      rfl
    · rw [hp, hdist, hz]
      norm_num [roundTwo]

theorem spec_C10_witness :
    (runScript okOracle wsEmpty).listing = [] ∧
    (runScript okOracle wsEmpty).printedSize = 0 :=
  (spec_C10 wsEmpty okOracle).2.2.2 (fun e he => by fin_cases he <;> rfl)

end CopyDist
